import Mathlib

/-!
# Latent Resonator — verification of the bridge-server core

Shallow embedding of the pure core of the Latent Resonator bridge:

* `euclidean_rhythm` — Bjorklund's algorithm
  (`Scripts/generate_koenig_seed.py`);
* the WAV codec fallback (`decode_wav_bytes` / `encode_wav_bytes` in
  `Scripts/ace_bridge_server.py`);
* the `/infer` parameter mapping and the `ACEStepWrapper.infer`
  passthrough / failure contract.

Bytes are modelled as `Nat` values `< 256`, 32-bit words as `Nat`
values `< 2^32`, and real-valued samples and parameters as `ℚ`
(the Python arithmetic involved in the claims is exact, see the
doc comments at the relevant definitions).
-/

namespace LatentResonator


/-! ## Euclidean rhythm (Bjorklund) — `generate_koenig_seed.py` lines 30–61 -/

/-- The `while len(remainder) > 1` loop of `euclidean_rhythm`.

Each iteration merges `pattern[i] + remainder[i]` for
`i < min(len(pattern), len(remainder))` and keeps the leftovers as the
new remainder.  The Python loop is unbounded; here it takes a fuel
argument.  Every iteration with a nonempty pattern removes at least one
group from the combined group count, and the pattern stays nonempty, so
`steps` (the initial group count) is always enough fuel. -/
def bjorklundLoop : Nat → List (List Nat) → List (List Nat) →
    List (List Nat) × List (List Nat)
  | 0, pattern, remainder => (pattern, remainder)
  | fuel + 1, pattern, remainder =>
    if 1 < remainder.length then
      let tk := min pattern.length remainder.length
      bjorklundLoop fuel (List.zipWith (· ++ ·) pattern remainder)
        (pattern.drop tk ++ remainder.drop tk)
    else (pattern, remainder)

/-- Function `euclidean_rhythm(pulses, steps)` from `generate_koenig_seed.py`:
`pulses >= steps` gives all ones, `pulses == 0` all zeros, otherwise
Bjorklund's merging loop on `[[1]]*pulses` and `[[0]]*(steps-pulses)`,
flattened. -/
def euclidean_rhythm (pulses steps : Nat) : List Nat :=
  if steps ≤ pulses then List.replicate steps 1
  else if pulses = 0 then List.replicate steps 0
  else
    let pr := bjorklundLoop steps (List.replicate pulses [1])
      (List.replicate (steps - pulses) [0])
    (pr.1 ++ pr.2).flatten

/-! ## `/infer` parameter mapping — `ace_bridge_server.py` lines 662–705

The Python arithmetic is IEEE double; it is modelled exactly over `ℚ`.
All operations involved are fixed affine transforms and `max`/`min`
clamps, whose behaviour at the claim's granularity does not depend on
double rounding. -/

structure MappedParams where
  guidance_interval : ℚ
  omega_scale : ℚ
  guidance_interval_decay : ℚ
  retake_variance : ℚ
  denoise_strength : ℚ
  min_guidance_scale : ℚ
  deriving DecidableEq

/-- The white-paper → ACE-Step parameter mapping computed in the
`/infer` handler (lines 675–705). -/
def mapInferParams (shift_raw entropy_raw granularity_raw : ℚ)
    (infer_method : String) (denoise_raw guidance_scale : ℚ) : MappedParams :=
  { guidance_interval := max 0.1 (min 0.9 (0.1 + (shift_raw - 1) / 9 * 0.8))
    omega_scale := max 1 (min 20 (1 + entropy_raw * 19))
    guidance_interval_decay := max 0 (min 1 granularity_raw)
    retake_variance := if infer_method = "sde" then 0.5 else 0.0
    denoise_strength := max 0 (min 1 denoise_raw)
    min_guidance_scale := max 1 (guidance_scale * 0.2) }

/-- Saturating clamp, written from the claim's wording ("pulling any
out-of-range input to the nearest bound"): used to compare the code's
`max lo (min hi x)` against the claimed behaviour. -/
def clampSpec (x lo hi : ℚ) : ℚ :=
  if x < lo then lo else if hi < x then hi else x

/-! ## `ACEStepWrapper.infer` — `ace_bridge_server.py` lines 262–402

The wrapper state holds the fields `infer` reads; the engine call
inside the `try` block (pipeline invocation, output-WAV lookup and
read-back) is abstracted as an `EngineOutcome` input, since the
pipeline itself is an external collaborator. -/

structure WrapperState where
  is_loaded : Bool
  /-- Whether `self.model is not None`. -/
  has_model : Bool
  inference_count : Nat
  deriving DecidableEq

/-- Outcome of the engine invocation inside the `try` block: the call
(or the surrounding temp-file I/O) raises, the result list holds no
`.wav` path, or a WAV is produced and read back as mono samples or
multichannel frames. -/
inductive EngineOutcome where
  | exn : EngineOutcome
  | noWav : EngineOutcome
  | okMono (samples : List ℚ) : EngineOutcome
  | okMulti (frames : List (List ℚ)) : EngineOutcome
  deriving DecidableEq

/-- Python 3 `round` (round half to even) on a rational. -/
def pyRound (q : ℚ) : ℤ :=
  let f := ⌊q⌋
  if q - f < 1/2 then f
  else if 1/2 < q - f then f + 1
  else if f % 2 = 0 then f else f + 1

/-- Result of one `infer` call: the returned audio, the new
`inference_count`, and the `infer_step` value passed to the engine
(`none` when the engine is not invoked). -/
structure InferResult where
  output : List ℚ
  count : Nat
  engineSteps : Option ℤ
  deriving DecidableEq

/-- The value `effective_steps = max(1, int(round(num_steps * denoise_strength)))`
with `denoise_strength` already clamped to `[0, 1]`. -/
def effective_steps (num_steps : ℤ) (denoise_strength : ℚ) : ℤ :=
  max 1 (pyRound ((num_steps : ℚ) * max 0 (min 1 denoise_strength)))

/-- Method `ACEStepWrapper.infer` (passthrough / denoise gating / failure
handling).  `audio_out.mean(axis=1)` on multichannel engine output is
modelled as the exact per-frame rational mean (float32 rounding of the
mean is not modelled; no claim depends on the mixed values). -/
def ACEStepWrapper.infer (st : WrapperState) (audio_samples : List ℚ)
    (num_steps : ℤ) (denoise_strength : ℚ) (engine : EngineOutcome) :
    InferResult :=
  if ¬ (st.is_loaded = true ∧ st.has_model = true) then
    ⟨audio_samples, st.inference_count, none⟩
  else if max 0 (min 1 denoise_strength) ≤ 0 then
    ⟨audio_samples, st.inference_count, none⟩
  else
    match engine with
    | .exn => ⟨audio_samples, st.inference_count,
        some (effective_steps num_steps denoise_strength)⟩
    | .noWav => ⟨audio_samples, st.inference_count,
        some (effective_steps num_steps denoise_strength)⟩
    | .okMono s => ⟨s, st.inference_count + 1,
        some (effective_steps num_steps denoise_strength)⟩
    | .okMulti frames =>
        ⟨frames.map (fun fr => fr.sum / (fr.length : ℚ)),
          st.inference_count + 1,
          some (effective_steps num_steps denoise_strength)⟩

/-! ## WAV codec — `ace_bridge_server.py` lines 408–535

Both `decode_wav_bytes` and `encode_wav_bytes` first try the external
`soundfile` library and fall back to the manual implementation on
`ImportError`; the manual fallback is the codec the spec describes and
is what is modelled here.  Bytes are `Nat < 256`.  Float32 samples are
32-bit words (`Nat < 2^32`) on the encode side (`tobytes` /
`frombuffer` on a little-endian host are pure byte reinterpretation);
on the decode side each sample is returned as its exact rational value
via `f32ValTotal`. -/

/-- Little-endian bytes of a 32-bit word (`struct.pack '<I'` payload,
or `numpy.tobytes` of one float32 word). -/
def u32le (x : Nat) : List Nat :=
  [x % 256, x / 256 % 256, x / 65536 % 256, x / 16777216 % 256]

/-- Little-endian bytes of a 16-bit word (`struct.pack '<H'` payload). -/
def u16le (x : Nat) : List Nat :=
  [x % 256, x / 256 % 256]

/-- Value of a little-endian byte string (`struct.unpack`). -/
def leVal : List Nat → Nat
  | [] => 0
  | b :: rest => b + 256 * leVal rest

/-- Read `struct.unpack('<H', w[pos:pos+2])`. -/
def readU16 (w : List Nat) (pos : Nat) : Nat :=
  leVal ((w.drop pos).take 2)

/-- Read `struct.unpack('<I', w[pos:pos+4])`. -/
def readU32 (w : List Nat) (pos : Nat) : Nat :=
  leVal ((w.drop pos).take 4)

/-- Exact rational value of an IEEE-754 binary32 bit pattern.
NaN and infinity patterns (exponent 255) have no rational value and
are mapped to `0`; every claim involving float32 values is restricted
to finite patterns (`isFiniteF32`). -/
def f32ValTotal (b : Nat) : ℚ :=
  let s : Nat := b / 2 ^ 31 % 2
  let e : Nat := b / 2 ^ 23 % 256
  let m : Nat := b % 2 ^ 23
  if e = 255 then 0
  else
    let mag : ℚ :=
      if e = 0 then (m : ℚ) / 2 ^ 23 * ((2 : ℚ) ^ (126 : Nat))⁻¹
      else (1 + (m : ℚ) / 2 ^ 23) * (2 : ℚ) ^ ((e : ℤ) - 127)
    if s = 1 then -mag else mag

/-- The bit pattern is a finite float32 (not NaN or ±inf). -/
def isFiniteF32 (b : Nat) : Prop :=
  b / 2 ^ 23 % 256 ≠ 255

/-- Split as `np.frombuffer(data, np.float32)`: 4-byte little-endian
words (`frombuffer` itself requires the length to be a multiple of 4;
that check lives in `decodeSamples`). -/
def leWords32 : List Nat → List Nat
  | b0 :: b1 :: b2 :: b3 :: rest =>
      (b0 + 256 * b1 + 65536 * b2 + 16777216 * b3) :: leWords32 rest
  | [] => []
  | [_] => []
  | [_, _] => []
  | [_, _, _] => []

/-- Split as `np.frombuffer(data, np.int16)`: little-endian signed 16-bit. -/
def leInt16s : List Nat → List ℤ
  | b0 :: b1 :: rest =>
      (if b0 + 256 * b1 < 32768 then ((b0 + 256 * b1 : Nat) : ℤ)
       else ((b0 + 256 * b1 : Nat) : ℤ) - 65536) :: leInt16s rest
  | [] => []
  | [_] => []

/-- The PCM-24 loop: `int.from_bytes(data[3i:3i+3], 'little', signed=True)`
for `i < len // 3`. -/
def leInt24s : List Nat → List ℤ
  | b0 :: b1 :: b2 :: rest =>
      (if b0 + 256 * b1 + 65536 * b2 < 8388608 then
        ((b0 + 256 * b1 + 65536 * b2 : Nat) : ℤ)
       else ((b0 + 256 * b1 + 65536 * b2 : Nat) : ℤ) - 16777216) :: leInt24s rest
  | [] => []
  | [_] => []
  | [_, _] => []

inductive DecodeErr where
  /-- Error `ValueError("WAV data too short")` — input shorter than 44 bytes. -/
  | tooShort : DecodeErr
  /-- Error `ValueError("Not a valid WAV file")` — bad RIFF/WAVE magic. -/
  | badMagic : DecodeErr
  /-- Error `struct.error` from unpacking a `fmt ` chunk that extends past the
  end of the input. -/
  | fmtTruncated : DecodeErr
  /-- Error `ValueError("Missing fmt or data chunk in WAV")`. -/
  | missingChunk : DecodeErr
  /-- Error `ValueError("Unsupported WAV format: ...")`. -/
  | unsupportedFormat : DecodeErr
  /-- Error `ValueError` from `np.frombuffer` when the payload length is not a
  multiple of the element size. -/
  | frombufferMisaligned : DecodeErr
  /-- Error `ValueError` from `reshape(-1, channels)` when the sample count is
  not divisible by the channel count. -/
  | reshapeMismatch : DecodeErr
  deriving DecidableEq

/-- Fields parsed from a `fmt ` chunk
(`struct.unpack('<HHIIHH', ...)`, positions 0, 1, 2 and 5). -/
structure FmtInfo where
  audio_format : Nat
  channels : Nat
  sample_rate : Nat
  bits_per_sample : Nat
  deriving DecidableEq

/-- The chunk-walking `while pos < len(wav_bytes) - 8` loop of
`decode_wav_bytes` (lines 442–459).  The Python loop is unbounded; here
it takes a fuel argument.  `pos` advances by at least 8 per iteration,
so `w.length` always over-approximates the iteration count; fuel
exhaustion (unreachable from `decode_wav_bytes`) behaves like loop
exit. -/
def chunkWalk (w : List Nat) : Nat → Nat → Option FmtInfo →
    Except DecodeErr (Option FmtInfo × List Nat)
  | 0, _, fmtInfo => .ok (fmtInfo, [])
  | fuel + 1, pos, fmtInfo =>
    if pos < w.length - 8 then
      if (w.drop pos).take 4 = [102, 109, 116, 32] then
        -- b'fmt ': unpack 16 bytes starting at the chunk payload
        if pos + 24 ≤ w.length then
          chunkWalk w fuel (pos + 8 + readU32 w (pos + 4))
            (some ⟨readU16 w (pos + 8), readU16 w (pos + 10),
              readU32 w (pos + 12), readU16 w (pos + 22)⟩)
        else .error .fmtTruncated
      else if (w.drop pos).take 4 = [100, 97, 116, 97] then
        -- b'data': slice (silently truncated to available bytes), break
        .ok (fmtInfo, (w.drop (pos + 8)).take (readU32 w (pos + 4)))
      else
        chunkWalk w fuel (pos + 8 + readU32 w (pos + 4)) fmtInfo
    else .ok (fmtInfo, [])

/-- Sample decoding by `(audio_format, bits_per_sample)`
(lines 464–486). -/
def decodeSamples (audio_format bits_per_sample : Nat)
    (data_bytes : List Nat) : Except DecodeErr (List ℚ) :=
  if audio_format = 3 ∧ bits_per_sample = 32 then
    if data_bytes.length % 4 = 0 then
      .ok ((leWords32 data_bytes).map f32ValTotal)
    else .error .frombufferMisaligned
  else if audio_format = 1 ∧ bits_per_sample = 16 then
    if data_bytes.length % 2 = 0 then
      .ok ((leInt16s data_bytes).map (fun (k : ℤ) => (k : ℚ) / 32768))
    else .error .frombufferMisaligned
  else if audio_format = 1 ∧ bits_per_sample = 24 then
    .ok ((leInt24s data_bytes).map (fun (k : ℤ) => (k : ℚ) / 8388608))
  else .error .unsupportedFormat

/-- The sample frames of `samples.reshape(-1, channels)`. -/
def frameRows (channels : Nat) (samples : List ℚ) : List (List ℚ) :=
  (List.range (samples.length / channels)).map
    (fun i => (samples.drop (i * channels)).take channels)

/-- Mixing `samples.reshape(-1, channels).mean(axis=1)` for `channels > 1`
(lines 489–490).  The float32 mean is modelled as the exact rational
mean; no claim depends on multichannel mixing values. -/
def mixToMono (channels : Nat) (samples : List ℚ) :
    Except DecodeErr (List ℚ) :=
  if channels ≤ 1 then .ok samples
  else if samples.length % channels = 0 then
    .ok ((frameRows channels samples).map (fun fr => fr.sum / (channels : ℚ)))
  else .error .reshapeMismatch

/-- Function `decode_wav_bytes`, manual fallback (lines 423–492). -/
def decode_wav_bytes (w : List Nat) : Except DecodeErr (List ℚ × Nat) :=
  if w.length < 44 then .error .tooShort
  else if ¬ (w.take 4 = [82, 73, 70, 70] ∧
      (w.drop 8).take 4 = [87, 65, 86, 69]) then .error .badMagic
  else
    match chunkWalk w w.length 12 none with
    | .error e => .error e
    | .ok (none, _) => .error .missingChunk
    | .ok (some fi, data_bytes) =>
      if data_bytes = [] then .error .missingChunk
      else
        match decodeSamples fi.audio_format fi.bits_per_sample data_bytes with
        | .error e => .error e
        | .ok samples =>
          match mixToMono fi.channels samples with
          | .error e => .error e
          | .ok mono => .ok (mono, fi.sample_rate)

/-- The 44-byte header layout written by `encode_wav_bytes`, as a
function of the packed fields (`struct.pack '<4sI4s4sIHHIIHH4sI'` with
`byte_rate = sample_rate * 4` and `block_align = 4`), followed by a
data payload. -/
def mkWav (fmt ch sample_rate bits declared : Nat) (payload : List Nat) :
    List Nat :=
  [82, 73, 70, 70] ++ (u32le (36 + payload.length) ++ ([87, 65, 86, 69] ++
  ([102, 109, 116, 32] ++ (u32le 16 ++ (u16le fmt ++ (u16le ch ++
  (u32le sample_rate ++ (u32le (sample_rate * 4) ++ (u16le 4 ++ (u16le bits ++
  ([100, 97, 116, 97] ++ (u32le declared ++ payload))))))))))))

/-- Function `encode_wav_bytes`, manual fallback (lines 511–535).
`struct.pack` raises for any `'<I'` field `≥ 2^32`, so encoding fails
(`none`) when `36 + len(data)`, `sample_rate` or `sample_rate * 4`
overflows an unsigned 32-bit field. -/
def encode_wav_bytes (samples : List Nat) (sample_rate : Nat) :
    Option (List Nat) :=
  if 36 + (samples.flatMap u32le).length < 2 ^ 32 ∧ sample_rate < 2 ^ 32 ∧
      sample_rate * 4 < 2 ^ 32 then
    some (mkWav 3 1 sample_rate 32 (samples.flatMap u32le).length
      (samples.flatMap u32le))
  else none

/-- One complete RIFF chunk for building containers: a 4-byte id and a
body whose declared size equals its actual length, so the chunk loop
skips it by `pos += chunk_size`. -/
structure RiffChunk where
  id : List Nat
  body : List Nat

/-- The chunk is well formed and is neither a `fmt ` nor a `data`
chunk: a 4-byte id other than those two, with a body whose length fits
the unsigned 32-bit size field. -/
def GoodChunk (c : RiffChunk) : Prop :=
  c.id.length = 4 ∧ c.id ≠ [102, 109, 116, 32] ∧
  c.id ≠ [100, 97, 116, 97] ∧ c.body.length < 2 ^ 32

/-- Byte layout of a complete chunk: id, little-endian size, body. -/
def chunkBytes (c : RiffChunk) : List Nat :=
  c.id ++ (u32le c.body.length ++ c.body)

/-- Byte layout of a standard 16-byte `fmt ` chunk
(format, channels, sample rate, byte rate, block align, bits). -/
def fmtChunkBytes (fmt ch r br ba bits : Nat) : List Nat :=
  [102, 109, 116, 32] ++ (u32le 16 ++ (u16le fmt ++ (u16le ch ++
    (u32le r ++ (u32le br ++ (u16le ba ++ u16le bits))))))

/-- Byte layout of a `data` chunk header with an arbitrary declared
size followed by the bytes actually present. -/
def dataChunkBytes (declared : Nat) (payload : List Nat) : List Nat :=
  [100, 97, 116, 97] ++ (u32le declared ++ payload)

/-- A general WAV container: RIFF/WAVE header, any complete non-fmt,
non-data chunks, a standard `fmt ` chunk, more such chunks, and a
final `data` chunk. -/
def mkWavG (pre : List RiffChunk) (fmt ch r br ba bits : Nat)
    (mid : List RiffChunk) (declared : Nat) (payload : List Nat) :
    List Nat :=
  [82, 73, 70, 70] ++ (u32le (36 + payload.length) ++ ([87, 65, 86, 69] ++
    (pre.flatMap chunkBytes ++ (fmtChunkBytes fmt ch r br ba bits ++
      (mid.flatMap chunkBytes ++ dataChunkBytes declared payload)))))

instance isFiniteF32.instDecidable (b : Nat) : Decidable (isFiniteF32 b) :=
  inferInstanceAs (Decidable (_ ≠ _))

instance instDecidableEqExcept {ε α : Type} [DecidableEq ε] [DecidableEq α] :
    DecidableEq (Except ε α)
  | .error a, .error b => decidable_of_iff (a = b) (by simp)
  | .error _, .ok _ => isFalse (fun h => Except.noConfusion h)
  | .ok _, .error _ => isFalse (fun h => Except.noConfusion h)
  | .ok a, .ok b => decidable_of_iff (a = b) (by simp)

/-! ## `generate_koenig_seed` — `generate_koenig_seed.py` lines 64–116

Modelled up to the impulse/noise placement into the float buffer; the
16-bit conversion and stereo file write (lines 118–130) are outside
the claims.  `np.random.normal` draws are supplied by the `noise`
parameter, indexed by (rhythm step, tail offset). -/

/-- Functional update of a buffer by an index-aware function
(`mapIdxQ f i l` applies `f` at running index starting from `i`). -/
def mapIdxQ (f : Nat → ℚ → ℚ) : Nat → List ℚ → List ℚ
  | _, [] => []
  | i, x :: xs => f i x :: mapIdxQ f (i + 1) xs

/-- One pulse write (lines 107–116): `audio[sample_pos] = 1.0`, then
`audio[sample_pos+1 : tail_end] = noise` with
`tail_end = min (sample_pos + 1 + noise_tail_samples) total_samples`. -/
def koenigWrite (total tailLen : Nat) (noise : Nat → Nat → ℚ)
    (step pos : Nat) (audio : List ℚ) : List ℚ :=
  mapIdxQ (fun i x =>
    if i = pos then 1
    else if pos + 1 ≤ i ∧ i < min (pos + 1 + tailLen) total then
      noise step (i - pos - 1)
    else x) 0 audio

/-- One iteration of the `for step_idx, is_pulse in enumerate(rhythm)`
loop (lines 99–116): skip non-pulses and out-of-range positions. -/
def koenigStep (total samples_per_step tailLen : Nat)
    (noise : Nat → Nat → ℚ) (audio : List ℚ) (p : Nat × Nat) : List ℚ :=
  if p.2 ≠ 0 ∧ p.1 * samples_per_step < total then
    koenigWrite total tailLen noise p.1 (p.1 * samples_per_step) audio
  else audio

/-- The impulse-placement loop over the enumerated rhythm, starting
from the all-zero buffer `np.zeros(total_samples)`. -/
def placeImpulses (total samples_per_step tailLen : Nat)
    (noise : Nat → Nat → ℚ) (rhythm : List Nat) : List ℚ :=
  rhythm.enum.foldl (koenigStep total samples_per_step tailLen noise)
    (List.replicate total 0)

/-- Function `generate_koenig_seed`, buffer synthesis:
`total_samples = int(duration * sample_rate)`,
`samples_per_step = total_samples // steps`,
`noise_tail_samples = int(noise_tail_ms / 1000 * sample_rate)`
(`int` truncation equals the floor for the nonnegative arguments in
scope). -/
def generate_koenig_seed (duration : ℚ) (sample_rate : Nat)
    (pulses steps : Nat) (noise_tail_ms : ℚ) (noise : Nat → Nat → ℚ) :
    List ℚ :=
  placeImpulses ⌊duration * sample_rate⌋.toNat
    (⌊duration * sample_rate⌋.toNat / steps)
    ⌊noise_tail_ms / 1000 * sample_rate⌋.toNat
    noise (euclidean_rhythm pulses steps)

theorem flatten_zipWith_append_perm (p r : List (List Nat)) :
    ((List.zipWith (· ++ ·) p r).flatten ++
      ((p.drop (min p.length r.length)).flatten ++
        (r.drop (min p.length r.length)).flatten)).Perm
      (p.flatten ++ r.flatten) := by
  induction p generalizing r with
  | nil => simp
  | cons a p ih =>
    cases r with
    | nil => simp
    | cons b r =>
      have h := ih r
      simp only [List.zipWith_cons_cons, List.flatten_cons, List.length_cons,
        Nat.succ_min_succ, List.drop_succ_cons, List.append_assoc]
      refine List.Perm.append_left a ?_
      refine (h.append_left b).trans ?_
      rw [← List.append_assoc, ← List.append_assoc]
      exact List.perm_append_comm.append_right _

theorem bjorklundLoop_flatten_perm (fuel : Nat) (p r : List (List Nat)) :
    (((bjorklundLoop fuel p r).1 ++ (bjorklundLoop fuel p r).2).flatten).Perm
      ((p ++ r).flatten) := by
  induction fuel generalizing p r with
  | zero => exact List.Perm.refl _
  | succ fuel ih =>
    by_cases h : 1 < r.length
    · simp only [bjorklundLoop, if_pos h]
      refine (ih _ _).trans ?_
      simp only [List.flatten_append]
      exact flatten_zipWith_append_perm p r
    · simp only [bjorklundLoop, if_neg h]
      exact List.Perm.refl _

theorem flatten_replicate_singleton (m : Nat) (a : Nat) :
    (List.replicate m [a]).flatten = List.replicate m a := by
  induction m with
  | zero => rfl
  | succ m ih => simp [List.replicate_succ, ih]

theorem euclidean_rhythm_perm (k n : Nat) (hk : 0 < k) (hkn : k < n) :
    (euclidean_rhythm k n).Perm
      (List.replicate k 1 ++ List.replicate (n - k) 0) := by
  unfold euclidean_rhythm
  rw [if_neg (by omega), if_neg (by omega)]
  refine (bjorklundLoop_flatten_perm n _ _).trans ?_
  rw [List.flatten_append, flatten_replicate_singleton, flatten_replicate_singleton]

theorem euclidean_rhythm_length (k n : Nat) :
    (euclidean_rhythm k n).length = n := by
  by_cases h1 : n ≤ k
  · rw [euclidean_rhythm, if_pos h1, List.length_replicate]
  · by_cases h2 : k = 0
    · rw [euclidean_rhythm, if_neg h1, if_pos h2, List.length_replicate]
    · rw [(euclidean_rhythm_perm k n (by omega) (by omega)).length_eq]
      simp [List.length_append]
      omega

theorem euclidean_rhythm_count (k n : Nat) (hk : 0 < k) (hkn : k < n) :
    (euclidean_rhythm k n).count 1 = k := by
  rw [(euclidean_rhythm_perm k n hk hkn).count_eq]
  rw [List.count_append, List.count_replicate_self, List.count_replicate]
  simp

/-- C3: for all `k ≥ 0`, `n ≥ 1`, `euclidean_rhythm k n` has length `n`;
all entries are `1` when `k ≥ n`; all entries are `0` when `k = 0`;
otherwise exactly `k` entries are `1`; the function is deterministic;
and `euclidean_rhythm 5 13 = [1,0,0,1,0,1,0,0,1,0,1,0,0]`. -/
theorem euclidean_rhythm_claim (k n : Nat) (hn : 1 ≤ n) :
    (euclidean_rhythm k n).length = n ∧
    (n ≤ k → ∀ x ∈ euclidean_rhythm k n, x = 1) ∧
    (k = 0 → ∀ x ∈ euclidean_rhythm k n, x = 0) ∧
    (0 < k → k < n → (euclidean_rhythm k n).count 1 = k) ∧
    euclidean_rhythm k n = euclidean_rhythm k n ∧
    euclidean_rhythm 5 13 = [1, 0, 0, 1, 0, 1, 0, 0, 1, 0, 1, 0, 0] := by
  refine ⟨euclidean_rhythm_length k n, ?_, ?_, euclidean_rhythm_count k n, rfl, by decide⟩
  · intro h x hx
    rw [euclidean_rhythm, if_pos h] at hx
    exact List.eq_of_mem_replicate hx
  · intro h x hx
    rw [euclidean_rhythm, h] at hx
    by_cases h1 : n ≤ 0
    · omega
    · rw [if_neg (by omega), if_pos rfl] at hx
      exact List.eq_of_mem_replicate hx

/-- Witness for C3 at `(k, n) = (5, 13)`. -/
theorem euclidean_rhythm_claim_witness :
    (euclidean_rhythm 5 13).length = 13 ∧ (euclidean_rhythm 5 13).count 1 = 5 :=
  ⟨(euclidean_rhythm_claim 5 13 (by decide)).1,
   (euclidean_rhythm_claim 5 13 (by decide)).2.2.2.1 (by decide) (by decide)⟩

theorem max_min_eq_clampSpec (lo hi x : ℚ) (h : lo ≤ hi) :
    max lo (min hi x) = clampSpec x lo hi := by
  unfold clampSpec
  split_ifs with h1 h2
  · rw [min_eq_right (le_of_lt (lt_of_lt_of_le h1 h)), max_eq_left (le_of_lt h1)]
  · rw [min_eq_left (le_of_lt h2), max_eq_right h]
  · rw [min_eq_right (not_lt.mp h2), max_eq_right (not_lt.mp h1)]

/-- C6: the `/infer` parameter mapping computes the claimed clamped
formulas, and each clamp is saturating (out-of-range inputs are pulled
to the nearest bound). -/
theorem infer_param_mapping_claim (shift entropy granularity : ℚ)
    (method : String) (denoise gs : ℚ) :
    (mapInferParams shift entropy granularity method denoise gs).guidance_interval
        = clampSpec (0.1 + (shift - 1) / 9 * 0.8) 0.1 0.9 ∧
    (mapInferParams shift entropy granularity method denoise gs).omega_scale
        = clampSpec (1 + entropy * 19) 1 20 ∧
    (mapInferParams shift entropy granularity method denoise gs).guidance_interval_decay
        = clampSpec granularity 0 1 ∧
    (mapInferParams shift entropy granularity method denoise gs).retake_variance
        = (if method = "sde" then 0.5 else 0.0) ∧
    (mapInferParams shift entropy granularity method denoise gs).min_guidance_scale
        = max 1 (gs * 0.2) ∧
    (shift < 1 →
      (mapInferParams shift entropy granularity method denoise gs).guidance_interval = 0.1) ∧
    (10 < shift →
      (mapInferParams shift entropy granularity method denoise gs).guidance_interval = 0.9) ∧
    (entropy < 0 →
      (mapInferParams shift entropy granularity method denoise gs).omega_scale = 1) ∧
    (1 < entropy →
      (mapInferParams shift entropy granularity method denoise gs).omega_scale = 20) ∧
    (granularity < 0 →
      (mapInferParams shift entropy granularity method denoise gs).guidance_interval_decay = 0) ∧
    (1 < granularity →
      (mapInferParams shift entropy granularity method denoise gs).guidance_interval_decay = 1) := by
  refine ⟨max_min_eq_clampSpec _ _ _ (by norm_num),
    max_min_eq_clampSpec _ _ _ (by norm_num),
    max_min_eq_clampSpec _ _ _ (by norm_num), rfl,
    rfl, ?_, ?_, ?_, ?_, ?_, ?_⟩
  · intro h
    show max 0.1 (min 0.9 (0.1 + (shift - 1) / 9 * 0.8)) = 0.1
    rw [min_eq_right (by nlinarith), max_eq_left (by nlinarith)]
  · intro h
    show max 0.1 (min 0.9 (0.1 + (shift - 1) / 9 * 0.8)) = 0.9
    rw [min_eq_left (by nlinarith)]
    norm_num
  · intro h
    show max 1 (min 20 (1 + entropy * 19)) = 1
    rw [min_eq_right (by nlinarith), max_eq_left (by nlinarith)]
  · intro h
    show max 1 (min 20 (1 + entropy * 19)) = 20
    rw [min_eq_left (by nlinarith)]
    norm_num
  · intro h
    show max 0 (min 1 granularity) = 0
    rw [min_eq_right (by nlinarith), max_eq_left (by nlinarith)]
  · intro h
    show max 0 (min 1 granularity) = 1
    rw [min_eq_left (by nlinarith)]
    norm_num

/-- Witness for C6 at out-of-range inputs
`shift = 0`, `entropy = 2`, `granularity = -1`, `method = "sde"`. -/
theorem infer_param_mapping_claim_witness :
    (mapInferParams 0 2 (-1) "sde" (1/2) 15).guidance_interval = 0.1 ∧
    (mapInferParams 0 2 (-1) "sde" (1/2) 15).omega_scale = 20 ∧
    (mapInferParams 0 2 (-1) "sde" (1/2) 15).guidance_interval_decay = 0 ∧
    (mapInferParams 0 2 (-1) "sde" (1/2) 15).retake_variance = 0.5 := by
  obtain ⟨h1, h2, h3, h4, h5, h6, h7, h8, h9, h10, h11⟩ :=
    infer_param_mapping_claim 0 2 (-1) "sde" (1/2) 15
  refine ⟨h6 (by norm_num), h9 (by norm_num), h10 (by norm_num), ?_⟩
  rw [h4]
  norm_num

/-- C2: `infer` passes audio through unchanged with `inference_count`
untouched when the model is not loaded or on any engine failure, and on
engine success increments `inference_count` by exactly one and returns
the engine output coerced to mono. -/
theorem infer_contract_claim (st : WrapperState) (audio : List ℚ)
    (ns : ℤ) (d : ℚ) :
    (st.is_loaded = false ∨ st.has_model = false →
      ∀ eng, ACEStepWrapper.infer st audio ns d eng =
        ⟨audio, st.inference_count, none⟩) ∧
    (∀ eng, eng = EngineOutcome.exn ∨ eng = EngineOutcome.noWav →
      (ACEStepWrapper.infer st audio ns d eng).output = audio ∧
      (ACEStepWrapper.infer st audio ns d eng).count = st.inference_count) ∧
    (st.is_loaded = true → st.has_model = true → 0 < d →
      (∀ s, (ACEStepWrapper.infer st audio ns d (.okMono s)).output = s ∧
        (ACEStepWrapper.infer st audio ns d (.okMono s)).count
          = st.inference_count + 1) ∧
      (∀ frames,
        (ACEStepWrapper.infer st audio ns d (.okMulti frames)).output
          = frames.map (fun fr => fr.sum / (fr.length : ℚ)) ∧
        (ACEStepWrapper.infer st audio ns d (.okMulti frames)).count
          = st.inference_count + 1)) := by
  refine ⟨?_, ?_, ?_⟩
  · intro h eng
    have hA : ¬ (st.is_loaded = true ∧ st.has_model = true) := by
      rcases h with h | h <;> simp [h]
    unfold ACEStepWrapper.infer
    rw [if_pos hA]
  · intro eng h
    rcases h with h | h <;> subst h <;> unfold ACEStepWrapper.infer <;>
      split_ifs <;> exact ⟨rfl, rfl⟩
  · intro h1 h2 hd
    have hcl : ¬ max 0 (min 1 d) ≤ (0 : ℚ) :=
      not_le.mpr (lt_of_lt_of_le (lt_min one_pos hd) (le_max_right _ _))
    constructor
    · intro s
      unfold ACEStepWrapper.infer
      rw [if_neg (not_not_intro ⟨h1, h2⟩), if_neg hcl]
      exact ⟨rfl, rfl⟩
    · intro frames
      unfold ACEStepWrapper.infer
      rw [if_neg (not_not_intro ⟨h1, h2⟩), if_neg hcl]
      exact ⟨rfl, rfl⟩

/-- Witness for C2: unloaded state passes through; a loaded state with
an engine success increments the count. -/
theorem infer_contract_claim_witness :
    ACEStepWrapper.infer ⟨false, false, 0⟩ [1] 20 1 EngineOutcome.exn
      = ⟨[1], 0, none⟩ ∧
    (ACEStepWrapper.infer ⟨true, true, 3⟩ [1] 20 1 (.okMono [2])).count = 4 := by
  refine ⟨(infer_contract_claim ⟨false, false, 0⟩ [1] 20 1).1
    (Or.inl rfl) EngineOutcome.exn, ?_⟩
  exact (((infer_contract_claim ⟨true, true, 3⟩ [1] 20 1).2.2 rfl rfl
    (by norm_num)).1 [2]).2

/-- C7: with the model loaded, a clamped denoise strength of `0` short-
circuits without invoking the engine; for `0 < d ≤ 1` the engine is
invoked with `max 1 (round (num_steps * d))` steps; out-of-range
denoise values saturate to the nearest bound. -/
theorem infer_denoise_claim (st : WrapperState) (audio : List ℚ)
    (ns : ℤ) (d : ℚ) (h1 : st.is_loaded = true) (h2 : st.has_model = true) :
    (d ≤ 0 → ∀ eng, ACEStepWrapper.infer st audio ns d eng =
      ⟨audio, st.inference_count, none⟩) ∧
    (0 < d → d ≤ 1 → ∀ eng,
      (ACEStepWrapper.infer st audio ns d eng).engineSteps
        = some (max 1 (pyRound ((ns : ℚ) * d)))) ∧
    (1 < d → ∀ eng,
      (ACEStepWrapper.infer st audio ns d eng).engineSteps
        = some (max 1 (pyRound (ns : ℚ)))) := by
  refine ⟨?_, ?_, ?_⟩
  · intro hd eng
    have hcl : max 0 (min 1 d) ≤ (0 : ℚ) := by
      rw [min_eq_right (le_trans hd (by norm_num)), max_eq_left hd]
    unfold ACEStepWrapper.infer
    rw [if_neg (not_not_intro ⟨h1, h2⟩), if_pos hcl]
  · intro hd hd1 eng
    have hcl : max 0 (min 1 d) = d := by
      rw [min_eq_right hd1, max_eq_right (le_of_lt hd)]
    have hpos : (0 : ℚ) < max 0 (min 1 d) := by
      rw [hcl]; exact hd
    unfold ACEStepWrapper.infer
    rw [if_neg (not_not_intro ⟨h1, h2⟩), if_neg (not_le.mpr hpos)]
    cases eng <;> simp [effective_steps, hcl]
  · intro hd eng
    have hcl : max 0 (min 1 d) = 1 := by
      rw [min_eq_left (le_of_lt hd)]
      norm_num
    have hpos : (0 : ℚ) < max 0 (min 1 d) := by
      rw [hcl]; exact one_pos
    unfold ACEStepWrapper.infer
    rw [if_neg (not_not_intro ⟨h1, h2⟩), if_neg (not_le.mpr hpos)]
    cases eng <;> simp [effective_steps, hcl]

/-- Witness for C7 at `num_steps = 20`: `d = 0` passes through,
`d = 1/4` gives 5 engine steps, `d = 2` saturates to 20 steps. -/
theorem infer_denoise_claim_witness :
    ACEStepWrapper.infer ⟨true, true, 0⟩ [1] 20 0 EngineOutcome.exn
      = ⟨[1], 0, none⟩ ∧
    (ACEStepWrapper.infer ⟨true, true, 0⟩ [1] 20 (1/4)
      (.okMono [2])).engineSteps = some 5 ∧
    (ACEStepWrapper.infer ⟨true, true, 0⟩ [1] 20 2
      (.okMono [2])).engineSteps = some 20 := by
  obtain ⟨ha, hb, hc⟩ := infer_denoise_claim ⟨true, true, 0⟩ [1] 20 0 rfl rfl
  obtain ⟨ha', hb', hc'⟩ :=
    infer_denoise_claim ⟨true, true, 0⟩ [1] 20 (1/4) rfl rfl
  obtain ⟨ha'', hb'', hc''⟩ :=
    infer_denoise_claim ⟨true, true, 0⟩ [1] 20 2 rfl rfl
  refine ⟨ha le_rfl EngineOutcome.exn, ?_, ?_⟩
  · rw [hb' (by norm_num) (by norm_num) (.okMono [2])]
    norm_num [pyRound]
  · rw [hc'' (by norm_num) (.okMono [2])]
    norm_num [pyRound]

theorem u32le_length (x : Nat) : (u32le x).length = 4 := rfl

theorem u16le_length (x : Nat) : (u16le x).length = 2 := rfl

theorem flatMap_u32le_length (l : List Nat) :
    (l.flatMap u32le).length = 4 * l.length := by
  induction l with
  | nil => rfl
  | cons b l ih =>
    simp [List.flatMap_cons, ih, u32le_length]
    omega

theorem leVal_pair (a b : Nat) : leVal [a, b] = a + 256 * b := rfl

theorem leVal_quad (a b c d : Nat) :
    leVal [a, b, c, d] = a + 256 * (b + 256 * (c + 256 * d)) := rfl

theorem leVal_u16le (x : Nat) (h : x < 2 ^ 16) : leVal (u16le x) = x := by
  unfold u16le
  rw [leVal_pair]
  omega

theorem leVal_u32le (x : Nat) (h : x < 2 ^ 32) : leVal (u32le x) = x := by
  unfold u32le
  rw [leVal_quad]
  omega

theorem leWords32_flatMap (B : List Nat) (h : ∀ b ∈ B, b < 2 ^ 32) :
    leWords32 (B.flatMap u32le) = B := by
  induction B with
  | nil => rfl
  | cons b B ih =>
    have hb := h b (List.mem_cons_self b B)
    have hrec : b % 256 + 256 * (b / 256 % 256) + 65536 * (b / 65536 % 256)
        + 16777216 * (b / 16777216 % 256) = b := by omega
    rw [List.flatMap_cons]
    simp only [u32le, List.cons_append, List.nil_append, leWords32, hrec]
    exact congrArg (List.cons b) (ih (fun x hx => h x (List.mem_cons_of_mem b hx)))

theorem leWords32_length (l : List Nat) :
    (leWords32 l).length = l.length / 4 := by
  induction l using leWords32.induct with
  | case1 b0 b1 b2 b3 rest ih =>
    simp only [leWords32, List.length_cons, ih]
    omega
  | case2 => rfl
  | case3 b0 => simp [leWords32]
  | case4 b0 b1 => simp [leWords32]
  | case5 b0 b1 b2 => simp [leWords32]

theorem mkWav_length (fmt ch r bits declared : Nat) (payload : List Nat) :
    (mkWav fmt ch r bits declared payload).length = 44 + payload.length := by
  simp [mkWav, u32le, u16le]
  omega

/-- Decoding the `mkWav` layout parses the fields back and runs the
sample-decode / mono-mix pipeline on the data payload truncated to the
declared chunk size. -/
theorem decode_mkWav (fmt ch r bits declared : Nat) (payload : List Nat)
    (hfmt : fmt < 2 ^ 16) (hch : ch < 2 ^ 16) (hr : r < 2 ^ 32)
    (hbits : bits < 2 ^ 16) (hdecl : declared < 2 ^ 32)
    (hpay : payload ≠ []) (hdecl0 : declared ≠ 0) :
    decode_wav_bytes (mkWav fmt ch r bits declared payload) =
      match decodeSamples fmt bits (payload.take declared) with
      | .error e => .error e
      | .ok samples =>
        match mixToMono ch samples with
        | .error e => .error e
        | .ok mono => .ok (mono, r) := by
  have hL : 0 < payload.length := List.length_pos.mpr hpay
  have hwlen : (mkWav fmt ch r bits declared payload).length
      = 44 + payload.length := mkWav_length _ _ _ _ _ _
  -- field reads
  have hcs1 : readU32 (mkWav fmt ch r bits declared payload) 16 = 16 := rfl
  have hfmtR : readU16 (mkWav fmt ch r bits declared payload) 20 = fmt := by
    have h0 : readU16 (mkWav fmt ch r bits declared payload) 20
        = leVal (u16le fmt) := rfl
    rw [h0, leVal_u16le fmt hfmt]
  have hchR : readU16 (mkWav fmt ch r bits declared payload) 22 = ch := by
    have h0 : readU16 (mkWav fmt ch r bits declared payload) 22
        = leVal (u16le ch) := rfl
    rw [h0, leVal_u16le ch hch]
  have hrR : readU32 (mkWav fmt ch r bits declared payload) 24 = r := by
    have h0 : readU32 (mkWav fmt ch r bits declared payload) 24
        = leVal (u32le r) := rfl
    rw [h0, leVal_u32le r hr]
  have hbitsR : readU16 (mkWav fmt ch r bits declared payload) 34 = bits := by
    have h0 : readU16 (mkWav fmt ch r bits declared payload) 34
        = leVal (u16le bits) := rfl
    rw [h0, leVal_u16le bits hbits]
  have hdeclR : readU32 (mkWav fmt ch r bits declared payload) 40
      = declared := by
    have h0 : readU32 (mkWav fmt ch r bits declared payload) 40
        = leVal (u32le declared) := rfl
    rw [h0, leVal_u32le declared hdecl]
  -- chunk walk: fmt chunk at 12, data chunk at 36
  have hwalk : chunkWalk (mkWav fmt ch r bits declared payload)
      (mkWav fmt ch r bits declared payload).length 12 none =
      .ok (some ⟨fmt, ch, r, bits⟩, payload.take declared) := by
    rw [hwlen, show 44 + payload.length = (43 + payload.length) + 1 by omega]
    have c1 : 12 < (mkWav fmt ch r bits declared payload).length - 8 := by
      rw [hwlen]; omega
    have c2 : 12 + 24 ≤ (mkWav fmt ch r bits declared payload).length := by
      rw [hwlen]; omega
    have hid1 : ((mkWav fmt ch r bits declared payload).drop 12).take 4
        = [102, 109, 116, 32] := rfl
    simp only [chunkWalk, if_pos c1, hid1, if_pos c2, if_pos rfl, hcs1,
      hfmtR, hchR, hrR, hbitsR]
    rw [show (12 + 8 + 16 : Nat) = 36 from rfl,
      show 43 + payload.length = (42 + payload.length) + 1 by omega]
    have c3 : 36 < (mkWav fmt ch r bits declared payload).length - 8 := by
      rw [hwlen]; omega
    have hid2 : ((mkWav fmt ch r bits declared payload).drop 36).take 4
        = [100, 97, 116, 97] := rfl
    have hid2' : ¬ (((mkWav fmt ch r bits declared payload).drop 36).take 4
        = [102, 109, 116, 32]) := by
      rw [hid2]; decide
    have hdropPay : (mkWav fmt ch r bits declared payload).drop (36 + 8)
        = payload := rfl
    simp only [chunkWalk, if_pos c3, if_neg hid2', hid2, hdeclR, hdropPay]
    simp
  -- assemble the decoder
  have hnot44 : ¬ (mkWav fmt ch r bits declared payload).length < 44 := by
    rw [hwlen]; omega
  have hmagic : ((mkWav fmt ch r bits declared payload).take 4
        = [82, 73, 70, 70] ∧
      ((mkWav fmt ch r bits declared payload).drop 8).take 4
        = [87, 65, 86, 69]) := ⟨rfl, rfl⟩
  have hne : ¬ (payload.take declared = []) := by
    intro hcon
    have hlt := congrArg List.length hcon
    rw [List.length_take] at hlt
    simp only [List.length_nil] at hlt
    omega
  unfold decode_wav_bytes
  rw [if_neg hnot44, if_neg (not_not_intro hmagic), hwalk]
  simp only [if_neg hne]

/-- C4: `decode_wav_bytes` fails for every input shorter than 44 bytes,
and for every input of at least 44 bytes without `RIFF` at offset 0 and
`WAVE` at offset 8. -/
theorem decode_validation_claim (w : List Nat) :
    (w.length < 44 → decode_wav_bytes w = .error DecodeErr.tooShort) ∧
    (44 ≤ w.length →
      ¬ (w.take 4 = [82, 73, 70, 70] ∧ (w.drop 8).take 4 = [87, 65, 86, 69]) →
      decode_wav_bytes w = .error DecodeErr.badMagic) := by
  constructor
  · intro h
    unfold decode_wav_bytes
    rw [if_pos h]
  · intro h hm
    unfold decode_wav_bytes
    rw [if_neg (not_lt.mpr h), if_pos hm]

/-- Witness for C4: the empty input and an all-zero 44-byte input. -/
theorem decode_validation_claim_witness :
    decode_wav_bytes [] = .error DecodeErr.tooShort ∧
    decode_wav_bytes (List.replicate 44 0) = .error DecodeErr.badMagic :=
  ⟨(decode_validation_claim []).1 (by decide),
   (decode_validation_claim (List.replicate 44 0)).2 (by decide) (by decide)⟩

/-- C1 (amended): for nonempty buffers of finite float32 samples whose
header fields fit `uint32`, `decode_wav_bytes ∘ encode_wav_bytes`
returns exactly the original sample values (so equal within any
positive tolerance, in particular 1e-5) and the original sample rate.
The empty buffer fails: `decode_encode_empty_counterexample`. -/
theorem decode_encode_roundtrip_claim (B : List Nat) (r : Nat)
    (hB : B ≠ []) (hB32 : ∀ b ∈ B, b < 2 ^ 32)
    (_hfin : ∀ b ∈ B, isFiniteF32 b)
    (hlen : 36 + 4 * B.length < 2 ^ 32) (hr : r < 2 ^ 32)
    (hr4 : r * 4 < 2 ^ 32) :
    (encode_wav_bytes B r).map decode_wav_bytes
      = some (.ok (B.map f32ValTotal, r)) := by
  have hdl : (B.flatMap u32le).length = 4 * B.length := flatMap_u32le_length B
  have hBlen : 0 < B.length := List.length_pos.mpr hB
  have hpayne : B.flatMap u32le ≠ [] := by
    intro hcon
    have hc := congrArg List.length hcon
    rw [hdl, List.length_nil] at hc
    omega
  have hcond : 36 + (B.flatMap u32le).length < 2 ^ 32 ∧ r < 2 ^ 32 ∧
      r * 4 < 2 ^ 32 := ⟨by rw [hdl]; exact hlen, hr, hr4⟩
  unfold encode_wav_bytes
  rw [if_pos hcond]
  have hdec := decode_mkWav 3 1 r 32 (B.flatMap u32le).length
    (B.flatMap u32le) (by norm_num) (by norm_num) hr (by norm_num)
    (by rw [hdl]; omega) hpayne (by rw [hdl]; omega)
  have hds : decodeSamples 3 32
      ((B.flatMap u32le).take (B.flatMap u32le).length)
      = .ok (B.map f32ValTotal) := by
    rw [List.take_length]
    unfold decodeSamples
    rw [if_pos ⟨rfl, rfl⟩, if_pos (by rw [hdl]; omega),
      leWords32_flatMap B hB32]
  rw [hds] at hdec
  have hmix : mixToMono 1 (B.map f32ValTotal) = .ok (B.map f32ValTotal) := by
    unfold mixToMono
    rw [if_pos le_rfl]
  simp only [hmix] at hdec
  rw [Option.map_some', hdec]

/-- C1 counterexample: encoding the empty buffer succeeds (a 44-byte
container with an empty data chunk), but decoding that output raises
the missing-chunk error instead of returning the empty buffer — the
chunk loop `while pos < len - 8` exits before an empty trailing data
chunk is parsed, and `not data_bytes` treats an empty payload as a
missing chunk. -/
theorem decode_encode_empty_counterexample :
    (encode_wav_bytes [] 48000).map decode_wav_bytes
      = some (.error DecodeErr.missingChunk) := by decide

/-- Witness for C1 at the three-sample buffer `[1.0, 0.0, -1.0]`
(bit patterns `0x3F800000`, `0x00000000`, `0xBF800000`), 48 kHz. -/
theorem decode_encode_roundtrip_claim_witness :
    (encode_wav_bytes [1065353216, 0, 3212836864] 48000).map decode_wav_bytes
      = some (.ok ([1, 0, -1], 48000)) := by
  have h := decode_encode_roundtrip_claim [1065353216, 0, 3212836864] 48000
    (by decide) (by decide) (by decide) (by decide) (by decide) (by decide)
  rw [h]
  simp only [List.map_cons, List.map_nil]
  norm_num [f32ValTotal]

/-- C5: sample decoding dispatches on the
`(audio_format, bits_per_sample)` pair: `(3, 32)` reinterprets the
payload as little-endian float32 words, `(1, 16)` divides little-endian
signed 16-bit integers by 32768, `(1, 24)` divides sign-extended 3-byte
little-endian integers by 8388608, and every other pair is an
unsupported-format error. -/
theorem decode_sample_format_claim :
    (∀ payload : List Nat, payload.length % 4 = 0 →
      decodeSamples 3 32 payload
        = .ok ((leWords32 payload).map f32ValTotal)) ∧
    (∀ payload : List Nat, payload.length % 2 = 0 →
      decodeSamples 1 16 payload
        = .ok ((leInt16s payload).map (fun (k : ℤ) => (k : ℚ) / 32768))) ∧
    (∀ payload : List Nat,
      decodeSamples 1 24 payload
        = .ok ((leInt24s payload).map (fun (k : ℤ) => (k : ℚ) / 8388608))) ∧
    (∀ (audio_format bits : Nat) (payload : List Nat),
      ¬ (audio_format = 3 ∧ bits = 32) → ¬ (audio_format = 1 ∧ bits = 16) →
      ¬ (audio_format = 1 ∧ bits = 24) →
      decodeSamples audio_format bits payload
        = .error DecodeErr.unsupportedFormat) := by
  refine ⟨?_, ?_, ?_, ?_⟩
  · intro payload h
    unfold decodeSamples
    rw [if_pos ⟨rfl, rfl⟩, if_pos h]
  · intro payload h
    unfold decodeSamples
    rw [if_neg (by decide), if_pos ⟨rfl, rfl⟩, if_pos h]
  · intro payload
    unfold decodeSamples
    rw [if_neg (by decide), if_neg (by decide), if_pos ⟨rfl, rfl⟩]
  · intro audio_format bits payload h1 h2 h3
    unfold decodeSamples
    rw [if_neg h1, if_neg h2, if_neg h3]

/-- Witness for C5: PCM16 `0x8000 → -1`, PCM24 `0x800000 → -1`,
float32 `0x3F800000 → 1`, and `(2, 16)` unsupported. -/
theorem decode_sample_format_claim_witness :
    decodeSamples 1 16 [0, 128] = .ok [-1] ∧
    decodeSamples 1 24 [0, 0, 128] = .ok [-1] ∧
    decodeSamples 3 32 [0, 0, 128, 63] = .ok [1] ∧
    decodeSamples 2 16 [0, 128] = .error DecodeErr.unsupportedFormat := by
  obtain ⟨h1, h2, h3, h4⟩ := decode_sample_format_claim
  refine ⟨?_, ?_, ?_, h4 2 16 [0, 128] (by decide) (by decide) (by decide)⟩
  · rw [h2 [0, 128] (by decide)]
    norm_num [leInt16s]
  · rw [h3 [0, 0, 128]]
    norm_num [leInt24s]
  · rw [h1 [0, 0, 128, 63] (by decide)]
    norm_num [leWords32, f32ValTotal]

/-- C8 (amended): encoding succeeds with exactly the claimed layout
whenever the packed `uint32` fields (RIFF size `36 + dataBytes`, sample
rate, byte rate) are in range; `struct.pack` raises outside that range
(`encode_overflow_counterexample`). -/
theorem encode_layout_claim (B : List Nat) (r : Nat)
    (hlen : 36 + 4 * B.length < 2 ^ 32) (hr : r < 2 ^ 32)
    (hr4 : r * 4 < 2 ^ 32) :
    (encode_wav_bytes B r).isSome = true ∧
    ∀ out, encode_wav_bytes B r = some out →
      out.length = 44 + 4 * B.length ∧
      out.take 4 = [82, 73, 70, 70] ∧
      leVal ((out.drop 4).take 4) = 36 + 4 * B.length ∧
      (out.drop 8).take 4 = [87, 65, 86, 69] ∧
      (out.drop 12).take 4 = [102, 109, 116, 32] ∧
      leVal ((out.drop 16).take 4) = 16 ∧
      leVal ((out.drop 20).take 2) = 3 ∧
      leVal ((out.drop 22).take 2) = 1 ∧
      leVal ((out.drop 24).take 4) = r ∧
      leVal ((out.drop 28).take 4) = r * 4 ∧
      leVal ((out.drop 32).take 2) = 4 ∧
      leVal ((out.drop 34).take 2) = 32 ∧
      (out.drop 36).take 4 = [100, 97, 116, 97] ∧
      leVal ((out.drop 40).take 4) = 4 * B.length ∧
      out.drop 44 = B.flatMap u32le := by
  have hdl : (B.flatMap u32le).length = 4 * B.length := flatMap_u32le_length B
  have hcond : 36 + (B.flatMap u32le).length < 2 ^ 32 ∧ r < 2 ^ 32 ∧
      r * 4 < 2 ^ 32 := ⟨by rw [hdl]; exact hlen, hr, hr4⟩
  have henc : encode_wav_bytes B r = some (mkWav 3 1 r 32
      (B.flatMap u32le).length (B.flatMap u32le)) := by
    unfold encode_wav_bytes
    rw [if_pos hcond]
  refine ⟨by rw [henc]; rfl, ?_⟩
  intro out hout
  rw [henc] at hout
  injection hout with hout
  subst hout
  refine ⟨by rw [mkWav_length, hdl], rfl, ?_, rfl, rfl, ?_, ?_, ?_, ?_, ?_,
    ?_, ?_, rfl, ?_, rfl⟩
  · have h0 : (((mkWav 3 1 r 32 (B.flatMap u32le).length
        (B.flatMap u32le)).drop 4).take 4)
        = u32le (36 + (B.flatMap u32le).length) := rfl
    rw [h0, leVal_u32le _ (by rw [hdl]; omega), hdl]
  · exact leVal_u32le 16 (by norm_num)
  · exact leVal_u16le 3 (by norm_num)
  · exact leVal_u16le 1 (by norm_num)
  · have h0 : (((mkWav 3 1 r 32 (B.flatMap u32le).length
        (B.flatMap u32le)).drop 24).take 4) = u32le r := rfl
    rw [h0, leVal_u32le r hr]
  · have h0 : (((mkWav 3 1 r 32 (B.flatMap u32le).length
        (B.flatMap u32le)).drop 28).take 4) = u32le (r * 4) := rfl
    rw [h0, leVal_u32le _ hr4]
  · exact leVal_u16le 4 (by norm_num)
  · exact leVal_u16le 32 (by norm_num)
  · have h0 : (((mkWav 3 1 r 32 (B.flatMap u32le).length
        (B.flatMap u32le)).drop 40).take 4)
        = u32le (B.flatMap u32le).length := rfl
    rw [h0, leVal_u32le _ (by rw [hdl]; omega), hdl]

/-- C8 counterexample: a finite buffer of `2^30` samples makes
`36 + len(data) = 36 + 2^32` overflow the `'<I'` RIFF-size field, so
`struct.pack` raises and encoding fails. -/
theorem encode_overflow_counterexample :
    encode_wav_bytes (List.replicate 1073741824 0) 48000 = none := by
  have hcon : ¬ (36 + ((List.replicate 1073741824 (0 : Nat)).flatMap
      u32le).length < 2 ^ 32 ∧ (48000 : Nat) < 2 ^ 32 ∧
      (48000 : Nat) * 4 < 2 ^ 32) := by
    rw [flatMap_u32le_length, List.length_replicate]
    rintro ⟨h1, -, -⟩
    norm_num at h1
  unfold encode_wav_bytes
  rw [if_neg hcon]

/-- Witness for C8 at the one-sample buffer `[0.0]`, 48 kHz. -/
theorem encode_layout_claim_witness :
    (encode_wav_bytes [0] 48000).isSome = true ∧
    leVal (((mkWav 3 1 48000 32 ([0].flatMap u32le).length
      ([0].flatMap u32le)).drop 24).take 4) = 48000 := by
  have h := encode_layout_claim [0] 48000 (by norm_num) (by norm_num)
    (by norm_num)
  exact ⟨h.1, ((h.2 _ (by decide)).2.2.2.2.2.2.2.2.1)⟩

theorem take_drop_append (A mid post : List Nat) (pos n : Nat)
    (hA : A.length = pos) (hm : mid.length = n) :
    ((A ++ (mid ++ post)).drop pos).take n = mid := by
  subst hA
  subst hm
  rw [List.drop_left, List.take_left]

theorem drop_append_at (A post : List Nat) (pos : Nat)
    (hA : A.length = pos) : (A ++ post).drop pos = post := by
  subst hA
  exact List.drop_left A post

theorem readU16_at (A post : List Nat) (x pos : Nat) (hA : A.length = pos)
    (hx : x < 2 ^ 16) : readU16 (A ++ (u16le x ++ post)) pos = x := by
  unfold readU16
  rw [take_drop_append A (u16le x) post pos 2 hA (u16le_length x),
    leVal_u16le x hx]

theorem readU32_at (A post : List Nat) (x pos : Nat) (hA : A.length = pos)
    (hx : x < 2 ^ 32) : readU32 (A ++ (u32le x ++ post)) pos = x := by
  unfold readU32
  rw [take_drop_append A (u32le x) post pos 4 hA (u32le_length x),
    leVal_u32le x hx]

theorem chunkBytes_length (c : RiffChunk) (h : c.id.length = 4) :
    (chunkBytes c).length = 8 + c.body.length := by
  simp only [chunkBytes, List.length_append, u32le_length, h]
  omega

theorem flatMap_chunkBytes_length_ge (cs : List RiffChunk)
    (h : ∀ c ∈ cs, c.id.length = 4) :
    cs.length ≤ (cs.flatMap chunkBytes).length := by
  induction cs with
  | nil => simp
  | cons c cs ih =>
    rw [List.flatMap_cons, List.length_append, List.length_cons,
      chunkBytes_length c (h c (List.mem_cons_self c cs))]
    have := ih (fun x hx => h x (List.mem_cons_of_mem c hx))
    omega

theorem fmtChunkBytes_length (fmt ch r br ba bits : Nat) :
    (fmtChunkBytes fmt ch r br ba bits).length = 24 := by
  simp [fmtChunkBytes, u32le, u16le]

theorem dataChunkBytes_length (declared : Nat) (payload : List Nat) :
    (dataChunkBytes declared payload).length = 8 + payload.length := by
  simp [dataChunkBytes, u32le]
  omega

theorem mkWavG_length (pre : List RiffChunk) (fmt ch r br ba bits : Nat)
    (mid : List RiffChunk) (declared : Nat) (payload : List Nat) :
    (mkWavG pre fmt ch r br ba bits mid declared payload).length
      = 44 + (pre.flatMap chunkBytes).length
        + (mid.flatMap chunkBytes).length + payload.length := by
  simp [mkWavG, fmtChunkBytes, dataChunkBytes, u32le, u16le]
  omega

theorem leInt16s_length (l : List Nat) :
    (leInt16s l).length = l.length / 2 := by
  induction l using leInt16s.induct with
  | case1 b0 b1 rest ih =>
    simp only [leInt16s, List.length_cons, ih]
    omega
  | case2 => rfl
  | case3 b0 => simp [leInt16s]

theorem leInt24s_length (l : List Nat) :
    (leInt24s l).length = l.length / 3 := by
  induction l using leInt24s.induct with
  | case1 b0 b1 b2 rest ih =>
    simp only [leInt24s, List.length_cons, ih]
    omega
  | case2 => rfl
  | case3 b0 => simp [leInt24s]
  | case4 b0 b1 => simp [leInt24s]

/-- The chunk loop skips one complete non-`fmt `, non-`data` chunk by
its declared size. -/
theorem chunkWalk_skip_one (A rest : List Nat) (pos fuel : Nat)
    (fmtInfo : Option FmtInfo) (c : RiffChunk) (hA : A.length = pos)
    (hgood : GoodChunk c) (hrest : 9 ≤ rest.length) :
    chunkWalk (A ++ (chunkBytes c ++ rest)) (fuel + 1) pos fmtInfo
      = chunkWalk (A ++ (chunkBytes c ++ rest)) fuel
          (pos + 8 + c.body.length) fmtInfo := by
  subst hA
  obtain ⟨hid4, hidf, hidd, hblen⟩ := hgood
  have hwlen : (A ++ (chunkBytes c ++ rest)).length
      = A.length + (8 + c.body.length) + rest.length := by
    simp [chunkBytes_length c hid4]
    omega
  have hguard : A.length < (A ++ (chunkBytes c ++ rest)).length - 8 := by
    omega
  have hid : ((A ++ (chunkBytes c ++ rest)).drop A.length).take 4
      = c.id := by
    have hshape : A ++ (chunkBytes c ++ rest)
        = A ++ (c.id ++ ((u32le c.body.length ++ c.body) ++ rest)) := by
      simp [chunkBytes, List.append_assoc]
    rw [hshape]
    exact take_drop_append A c.id _ A.length 4 rfl hid4
  have hsize : readU32 (A ++ (chunkBytes c ++ rest)) (A.length + 4)
      = c.body.length := by
    have hshape : A ++ (chunkBytes c ++ rest)
        = (A ++ c.id) ++ (u32le c.body.length ++ (c.body ++ rest)) := by
      simp [chunkBytes, List.append_assoc]
    rw [hshape]
    exact readU32_at (A ++ c.id) _ c.body.length (A.length + 4)
      (by rw [List.length_append, hid4]) hblen
  simp only [chunkWalk, if_pos hguard, hid, if_neg hidf, if_neg hidd, hsize]

/-- The chunk loop skips any list of complete non-`fmt `, non-`data`
chunks, advancing the position by their total byte length. -/
theorem chunkWalk_skip_list (cs : List RiffChunk) (A rest : List Nat)
    (pos fuel : Nat) (fmtInfo : Option FmtInfo) (hA : A.length = pos)
    (hgood : ∀ c ∈ cs, GoodChunk c) (hrest : 9 ≤ rest.length) :
    chunkWalk (A ++ (cs.flatMap chunkBytes ++ rest)) (cs.length + fuel)
        pos fmtInfo
      = chunkWalk (A ++ (cs.flatMap chunkBytes ++ rest)) fuel
          (pos + (cs.flatMap chunkBytes).length) fmtInfo := by
  induction cs generalizing A pos with
  | nil => simp
  | cons c cs ih =>
    have hgc := hgood c (List.mem_cons_self c cs)
    have hshape : A ++ ((c :: cs).flatMap chunkBytes ++ rest)
        = A ++ (chunkBytes c ++ (cs.flatMap chunkBytes ++ rest)) := by
      simp [List.flatMap_cons, List.append_assoc]
    rw [hshape,
      show (c :: cs).length + fuel = (cs.length + fuel) + 1 by
        rw [List.length_cons]; omega,
      chunkWalk_skip_one A (cs.flatMap chunkBytes ++ rest) pos
        (cs.length + fuel) fmtInfo c hA hgc
        (by rw [List.length_append]; omega)]
    have hshape2 : A ++ (chunkBytes c ++ (cs.flatMap chunkBytes ++ rest))
        = (A ++ chunkBytes c) ++ (cs.flatMap chunkBytes ++ rest) := by
      simp [List.append_assoc]
    rw [hshape2,
      ih (A ++ chunkBytes c) (pos + 8 + c.body.length)
        (by rw [List.length_append, hA, chunkBytes_length c hgc.1]; omega)
        (fun x hx => hgood x (List.mem_cons_of_mem c hx))]
    congr 1
    rw [List.flatMap_cons, List.length_append, chunkBytes_length c hgc.1]
    omega

/-- The chunk loop parses a standard 16-byte `fmt ` chunk and moves
past it. -/
theorem chunkWalk_fmt_step (A rest : List Nat) (pos fuel : Nat)
    (fmtInfo : Option FmtInfo) (fmt ch r br ba bits : Nat)
    (hA : A.length = pos) (hrest : 1 ≤ rest.length)
    (hfmt : fmt < 2 ^ 16) (hch : ch < 2 ^ 16) (hr : r < 2 ^ 32)
    (hbits : bits < 2 ^ 16) :
    chunkWalk (A ++ (fmtChunkBytes fmt ch r br ba bits ++ rest)) (fuel + 1)
        pos fmtInfo
      = chunkWalk (A ++ (fmtChunkBytes fmt ch r br ba bits ++ rest)) fuel
          (pos + 24) (some ⟨fmt, ch, r, bits⟩) := by
  subst hA
  have hwlen : (A ++ (fmtChunkBytes fmt ch r br ba bits ++ rest)).length
      = A.length + 24 + rest.length := by
    simp [fmtChunkBytes_length]
    omega
  have hguard : A.length
      < (A ++ (fmtChunkBytes fmt ch r br ba bits ++ rest)).length - 8 := by
    omega
  have hfguard : A.length + 24
      ≤ (A ++ (fmtChunkBytes fmt ch r br ba bits ++ rest)).length := by
    omega
  have hid : ((A ++ (fmtChunkBytes fmt ch r br ba bits ++ rest)).drop
      A.length).take 4 = [102, 109, 116, 32] := by
    have hshape : A ++ (fmtChunkBytes fmt ch r br ba bits ++ rest)
        = A ++ ([102, 109, 116, 32] ++ ((u32le 16 ++ (u16le fmt ++
          (u16le ch ++ (u32le r ++ (u32le br ++ (u16le ba ++
            u16le bits)))))) ++ rest)) := by
      simp [fmtChunkBytes, List.append_assoc]
    rw [hshape]
    exact take_drop_append A _ _ A.length 4 rfl rfl
  have hcs : readU32 (A ++ (fmtChunkBytes fmt ch r br ba bits ++ rest))
      (A.length + 4) = 16 := by
    have hshape : A ++ (fmtChunkBytes fmt ch r br ba bits ++ rest)
        = (A ++ [102, 109, 116, 32]) ++ (u32le 16 ++ ((u16le fmt ++
          (u16le ch ++ (u32le r ++ (u32le br ++ (u16le ba ++
            u16le bits))))) ++ rest)) := by
      simp [fmtChunkBytes, List.append_assoc]
    rw [hshape]
    exact readU32_at _ _ 16 (A.length + 4) (by simp) (by norm_num)
  have hreadf : readU16 (A ++ (fmtChunkBytes fmt ch r br ba bits ++ rest))
      (A.length + 8) = fmt := by
    have hshape : A ++ (fmtChunkBytes fmt ch r br ba bits ++ rest)
        = (A ++ ([102, 109, 116, 32] ++ u32le 16)) ++ (u16le fmt ++
          ((u16le ch ++ (u32le r ++ (u32le br ++ (u16le ba ++
            u16le bits)))) ++ rest)) := by
      simp [fmtChunkBytes, List.append_assoc]
    rw [hshape]
    exact readU16_at _ _ fmt (A.length + 8) (by simp [u32le]) hfmt
  have hreadc : readU16 (A ++ (fmtChunkBytes fmt ch r br ba bits ++ rest))
      (A.length + 10) = ch := by
    have hshape : A ++ (fmtChunkBytes fmt ch r br ba bits ++ rest)
        = (A ++ ([102, 109, 116, 32] ++ (u32le 16 ++ u16le fmt)))
          ++ (u16le ch ++ ((u32le r ++ (u32le br ++ (u16le ba ++
            u16le bits))) ++ rest)) := by
      simp [fmtChunkBytes, List.append_assoc]
    rw [hshape]
    exact readU16_at _ _ ch (A.length + 10) (by simp [u32le, u16le]) hch
  have hreadr : readU32 (A ++ (fmtChunkBytes fmt ch r br ba bits ++ rest))
      (A.length + 12) = r := by
    have hshape : A ++ (fmtChunkBytes fmt ch r br ba bits ++ rest)
        = (A ++ ([102, 109, 116, 32] ++ (u32le 16 ++ (u16le fmt ++
          u16le ch)))) ++ (u32le r ++ ((u32le br ++ (u16le ba ++
            u16le bits)) ++ rest)) := by
      simp [fmtChunkBytes, List.append_assoc]
    rw [hshape]
    exact readU32_at _ _ r (A.length + 12) (by simp [u32le, u16le]) hr
  have hreadb : readU16 (A ++ (fmtChunkBytes fmt ch r br ba bits ++ rest))
      (A.length + 22) = bits := by
    have hshape : A ++ (fmtChunkBytes fmt ch r br ba bits ++ rest)
        = (A ++ ([102, 109, 116, 32] ++ (u32le 16 ++ (u16le fmt ++
          (u16le ch ++ (u32le r ++ (u32le br ++ u16le ba)))))))
          ++ (u16le bits ++ rest) := by
      simp [fmtChunkBytes, List.append_assoc]
    rw [hshape]
    exact readU16_at _ _ bits (A.length + 22) (by simp [u32le, u16le])
      hbits
  simp only [chunkWalk, if_pos hguard, hid, if_pos rfl, if_pos hfguard,
    hcs, hreadf, hreadc, hreadr, hreadb]
  norm_num

/-- The chunk loop stops at a `data` chunk and returns its payload
silently truncated to the bytes actually present. -/
theorem chunkWalk_data_step (A payload : List Nat) (pos fuel declared : Nat)
    (fmtInfo : Option FmtInfo) (hA : A.length = pos)
    (hpay : payload ≠ []) (hdecl : declared < 2 ^ 32) :
    chunkWalk (A ++ dataChunkBytes declared payload) (fuel + 1) pos fmtInfo
      = .ok (fmtInfo, payload.take declared) := by
  subst hA
  have hplen : 0 < payload.length := List.length_pos.mpr hpay
  have hwlen : (A ++ dataChunkBytes declared payload).length
      = A.length + 8 + payload.length := by
    simp [dataChunkBytes_length]
    omega
  have hguard : A.length < (A ++ dataChunkBytes declared payload).length - 8 := by
    omega
  have hid : ((A ++ dataChunkBytes declared payload).drop A.length).take 4
      = [100, 97, 116, 97] := by
    have hshape : A ++ dataChunkBytes declared payload
        = A ++ ([100, 97, 116, 97] ++ (u32le declared ++ payload)) := by
      simp [dataChunkBytes]
    rw [hshape]
    exact take_drop_append A _ _ A.length 4 rfl rfl
  have hidf : ¬ (((A ++ dataChunkBytes declared payload).drop
      A.length).take 4 = [102, 109, 116, 32]) := by
    rw [hid]
    decide
  have hsize : readU32 (A ++ dataChunkBytes declared payload)
      (A.length + 4) = declared := by
    have hshape : A ++ dataChunkBytes declared payload
        = (A ++ [100, 97, 116, 97]) ++ (u32le declared ++ payload) := by
      simp [dataChunkBytes, List.append_assoc]
    rw [hshape]
    exact readU32_at _ _ declared (A.length + 4) (by simp) hdecl
  have hpays : (A ++ dataChunkBytes declared payload).drop (A.length + 8)
      = payload := by
    have hshape : A ++ dataChunkBytes declared payload
        = (A ++ ([100, 97, 116, 97] ++ u32le declared)) ++ payload := by
      simp [dataChunkBytes, List.append_assoc]
    rw [hshape]
    exact drop_append_at _ payload (A.length + 8) (by simp [u32le])
  simp only [chunkWalk, if_pos hguard, if_neg hidf, hid, if_pos rfl,
    hsize, hpays]
  simp

/-- The full chunk walk over a general container: skips the leading
chunks, parses the `fmt ` chunk, skips the middle chunks, and stops at
the `data` chunk with the payload truncated to the available bytes. -/
theorem chunkWalk_mkWavG_fuel (pre : List RiffChunk)
    (fmt ch r br ba bits : Nat) (mid : List RiffChunk) (declared : Nat)
    (payload : List Nat) (fuel : Nat)
    (hpre : ∀ c ∈ pre, GoodChunk c) (hmid : ∀ c ∈ mid, GoodChunk c)
    (hfmt : fmt < 2 ^ 16) (hch : ch < 2 ^ 16) (hr : r < 2 ^ 32)
    (hbits : bits < 2 ^ 16) (hdecl : declared < 2 ^ 32)
    (hpay : payload ≠ [])
    (hfuel : pre.length + mid.length + 2 ≤ fuel) :
    chunkWalk (mkWavG pre fmt ch r br ba bits mid declared payload)
        fuel 12 none
      = .ok (some ⟨fmt, ch, r, bits⟩, payload.take declared) := by
  have hplen : 0 < payload.length := List.length_pos.mpr hpay
  have hshapeA : mkWavG pre fmt ch r br ba bits mid declared payload
      = ([82, 73, 70, 70] ++ (u32le (36 + payload.length) ++
          [87, 65, 86, 69]))
        ++ (pre.flatMap chunkBytes ++ (fmtChunkBytes fmt ch r br ba bits
          ++ (mid.flatMap chunkBytes ++ dataChunkBytes declared payload))) := by
    simp [mkWavG, List.append_assoc]
  rw [hshapeA, show fuel = pre.length + (fuel - pre.length) by omega,
    chunkWalk_skip_list pre _ _ 12 (fuel - pre.length) none
      (by simp [u32le]) hpre
      (by simp [fmtChunkBytes_length, dataChunkBytes_length]; omega)]
  have hshapeB : ([82, 73, 70, 70] ++ (u32le (36 + payload.length) ++
        [87, 65, 86, 69]))
        ++ (pre.flatMap chunkBytes ++ (fmtChunkBytes fmt ch r br ba bits
          ++ (mid.flatMap chunkBytes ++ dataChunkBytes declared payload)))
      = (([82, 73, 70, 70] ++ (u32le (36 + payload.length) ++
          [87, 65, 86, 69])) ++ pre.flatMap chunkBytes)
        ++ (fmtChunkBytes fmt ch r br ba bits
          ++ (mid.flatMap chunkBytes ++ dataChunkBytes declared payload)) := by
    simp [List.append_assoc]
  rw [hshapeB,
    show fuel - pre.length = ((fuel - pre.length) - 1) + 1 by omega,
    chunkWalk_fmt_step _ _ (12 + (pre.flatMap chunkBytes).length)
      ((fuel - pre.length) - 1) none fmt ch r br ba bits
      (by simp [u32le]; omega)
      (by simp [dataChunkBytes_length]; omega) hfmt hch hr hbits]
  have hshapeC : (([82, 73, 70, 70] ++ (u32le (36 + payload.length) ++
          [87, 65, 86, 69])) ++ pre.flatMap chunkBytes)
        ++ (fmtChunkBytes fmt ch r br ba bits
          ++ (mid.flatMap chunkBytes ++ dataChunkBytes declared payload))
      = ((([82, 73, 70, 70] ++ (u32le (36 + payload.length) ++
          [87, 65, 86, 69])) ++ pre.flatMap chunkBytes)
            ++ fmtChunkBytes fmt ch r br ba bits)
        ++ (mid.flatMap chunkBytes ++ dataChunkBytes declared payload) := by
    simp [List.append_assoc]
  rw [hshapeC,
    show (fuel - pre.length) - 1 = mid.length + ((fuel - pre.length) - 1
      - mid.length) by omega,
    chunkWalk_skip_list mid _ _ (12 + (pre.flatMap chunkBytes).length + 24)
      ((fuel - pre.length) - 1 - mid.length) (some ⟨fmt, ch, r, bits⟩)
      (by simp [u32le, fmtChunkBytes_length]; omega) hmid
      (by simp [dataChunkBytes_length]; omega)]
  have hshapeD : ((([82, 73, 70, 70] ++ (u32le (36 + payload.length) ++
          [87, 65, 86, 69])) ++ pre.flatMap chunkBytes)
            ++ fmtChunkBytes fmt ch r br ba bits)
        ++ (mid.flatMap chunkBytes ++ dataChunkBytes declared payload)
      = (((([82, 73, 70, 70] ++ (u32le (36 + payload.length) ++
          [87, 65, 86, 69])) ++ pre.flatMap chunkBytes)
            ++ fmtChunkBytes fmt ch r br ba bits)
          ++ mid.flatMap chunkBytes) ++ dataChunkBytes declared payload := by
    simp [List.append_assoc]
  rw [hshapeD,
    show (fuel - pre.length) - 1 - mid.length
      = ((fuel - pre.length) - 1 - mid.length - 1) + 1 by omega,
    chunkWalk_data_step _ payload
      (12 + (pre.flatMap chunkBytes).length + 24
        + (mid.flatMap chunkBytes).length) _ declared
      (some ⟨fmt, ch, r, bits⟩)
      (by simp [u32le, fmtChunkBytes_length]; omega) hpay hdecl]

/-- Sample decoding never fails on a supported format when the payload
is aligned to the sample size, and yields one sample per
`bits / 8` payload bytes. -/
theorem decodeSamples_supported (fmt bits : Nat) (payload : List Nat)
    (hsupp : (fmt = 3 ∧ bits = 32) ∨ (fmt = 1 ∧ bits = 16) ∨
      (fmt = 1 ∧ bits = 24))
    (halign : payload.length % (bits / 8) = 0) :
    (decodeSamples fmt bits payload).isOk = true ∧
    (∀ s, decodeSamples fmt bits payload = Except.ok s →
      s.length = payload.length / (bits / 8)) := by
  rcases hsupp with ⟨hf, hb⟩ | ⟨hf, hb⟩ | ⟨hf, hb⟩ <;> subst hf <;> subst hb
  · have hds : decodeSamples 3 32 payload
        = .ok ((leWords32 payload).map f32ValTotal) := by
      unfold decodeSamples
      rw [if_pos ⟨rfl, rfl⟩, if_pos (by omega)]
    rw [hds]
    refine ⟨rfl, ?_⟩
    intro s hs
    injection hs with hs
    subst hs
    rw [List.length_map, leWords32_length]
  · have hds : decodeSamples 1 16 payload
        = .ok ((leInt16s payload).map (fun (k : ℤ) => (k : ℚ) / 32768)) := by
      unfold decodeSamples
      rw [if_neg (by decide), if_pos ⟨rfl, rfl⟩, if_pos (by omega)]
    rw [hds]
    refine ⟨rfl, ?_⟩
    intro s hs
    injection hs with hs
    subst hs
    rw [List.length_map, leInt16s_length]
  · have hds : decodeSamples 1 24 payload
        = .ok ((leInt24s payload).map (fun (k : ℤ) => (k : ℚ) / 8388608)) := by
      unfold decodeSamples
      rw [if_neg (by decide), if_neg (by decide), if_pos ⟨rfl, rfl⟩]
    rw [hds]
    refine ⟨rfl, ?_⟩
    intro s hs
    injection hs with hs
    subst hs
    rw [List.length_map, leInt24s_length]

/-- C9 (amended): for every container made of the RIFF/WAVE header,
any complete non-`fmt `/non-`data` chunks, a standard 16-byte mono
`fmt ` chunk declaring a supported `(format, bits)` pair, any further
such chunks, and a final `data` chunk declaring more bytes than remain
(the remaining count a multiple of the sample size), decoding raises
no error: it proceeds on the payload silently truncated to the
available bytes and returns `remaining / (bits/8)` samples.  (Over
*every* input the claim fails: without a preceding `fmt ` chunk the
same oversized data chunk still raises the missing-chunk error,
`decode_truncated_missing_fmt_counterexample`.) -/
theorem decode_truncated_data_claim (pre mid : List RiffChunk)
    (fmt r br ba bits declared : Nat) (payload : List Nat)
    (hpre : ∀ c ∈ pre, GoodChunk c) (hmid : ∀ c ∈ mid, GoodChunk c)
    (hsupp : (fmt = 3 ∧ bits = 32) ∨ (fmt = 1 ∧ bits = 16) ∨
      (fmt = 1 ∧ bits = 24))
    (hr : r < 2 ^ 32) (hdecl : declared < 2 ^ 32)
    (hpay : payload ≠ []) (htrunc : payload.length < declared)
    (halign : payload.length % (bits / 8) = 0) :
    decode_wav_bytes (mkWavG pre fmt 1 r br ba bits mid declared payload)
      = Except.map (fun s => (s, r)) (decodeSamples fmt bits payload) ∧
    (decodeSamples fmt bits payload).isOk = true ∧
    (∀ s, decodeSamples fmt bits payload = Except.ok s →
      s.length = payload.length / (bits / 8)) := by
  obtain ⟨hok, hslen⟩ := decodeSamples_supported fmt bits payload hsupp halign
  refine ⟨?_, hok, hslen⟩
  have hfmt : fmt < 2 ^ 16 := by
    rcases hsupp with ⟨h, -⟩ | ⟨h, -⟩ | ⟨h, -⟩ <;> omega
  have hbits : bits < 2 ^ 16 := by
    rcases hsupp with ⟨-, h⟩ | ⟨-, h⟩ | ⟨-, h⟩ <;> omega
  have hplen : 0 < payload.length := List.length_pos.mpr hpay
  have hwlen := mkWavG_length pre fmt 1 r br ba bits mid declared payload
  have hpre1 : pre.length ≤ (pre.flatMap chunkBytes).length :=
    flatMap_chunkBytes_length_ge pre (fun c hc => (hpre c hc).1)
  have hmid1 : mid.length ≤ (mid.flatMap chunkBytes).length :=
    flatMap_chunkBytes_length_ge mid (fun c hc => (hmid c hc).1)
  have hwalk := chunkWalk_mkWavG_fuel pre fmt 1 r br ba bits mid declared
    payload (mkWavG pre fmt 1 r br ba bits mid declared payload).length
    hpre hmid hfmt (by norm_num) hr hbits hdecl hpay (by omega)
  obtain ⟨s, hs⟩ : ∃ s, decodeSamples fmt bits payload = .ok s := by
    cases hcase : decodeSamples fmt bits payload with
    | ok s => exact ⟨s, rfl⟩
    | error e =>
      rw [hcase] at hok
      exact absurd hok (by simp [Except.isOk, Except.toBool])
  have htake : payload.take declared = payload :=
    List.take_of_length_le (le_of_lt htrunc)
  have hmix : mixToMono 1 s = .ok s := by
    unfold mixToMono
    rw [if_pos le_rfl]
  have h44 : ¬ (mkWavG pre fmt 1 r br ba bits mid declared payload).length
      < 44 := by omega
  have hmagic : ((mkWavG pre fmt 1 r br ba bits mid declared
        payload).take 4 = [82, 73, 70, 70] ∧
      ((mkWavG pre fmt 1 r br ba bits mid declared payload).drop 8).take 4
        = [87, 65, 86, 69]) := ⟨rfl, rfl⟩
  unfold decode_wav_bytes
  rw [if_neg h44, if_neg (not_not_intro hmagic), hwalk, htake]
  simp only [if_neg hpay, hs, hmix, Except.map]

/-- C9 counterexample: a 44-byte container whose `data` chunk declares
100 bytes while only 24 remain, but which has no `fmt ` chunk, raises
the missing-chunk error — contradicting the claim that no
missing-chunk error is raised for any input with an oversized data
chunk. -/
theorem decode_truncated_missing_fmt_counterexample :
    decode_wav_bytes ([82, 73, 70, 70] ++ u32le 36 ++ [87, 65, 86, 69] ++
        [100, 97, 116, 97] ++ u32le 100 ++ List.replicate 24 0)
      = .error DecodeErr.missingChunk := by decide

/-- Witness for C9 at a PCM16 mono container with a `LIST` chunk
between `fmt ` and `data`, whose data chunk declares 100 bytes while
only the two bytes `0x8000` remain: decodes to the single sample
`-1`. -/
theorem decode_truncated_data_claim_witness :
    decode_wav_bytes (mkWavG [] 1 1 8000 16000 2 16
        [⟨[76, 73, 83, 84], [0, 0]⟩] 100 [0, 128])
      = .ok ([-1], 8000) := by
  have h := decode_truncated_data_claim []
    [⟨[76, 73, 83, 84], [0, 0]⟩] 1 8000 16000 2 16 100 [0, 128]
    (fun c hc => absurd hc (List.not_mem_nil c))
    (by
      intro c hc
      rw [List.mem_singleton] at hc
      subst hc
      exact ⟨rfl, by decide, by decide, by norm_num⟩)
    (Or.inr (Or.inl ⟨rfl, rfl⟩)) (by norm_num) (by norm_num) (by decide)
    (by decide) (by decide)
  rw [h.1]
  norm_num [decodeSamples, leInt16s, Except.map]

theorem mapIdxQ_length (f : Nat → ℚ → ℚ) (i : Nat) (l : List ℚ) :
    (mapIdxQ f i l).length = l.length := by
  induction l generalizing i with
  | nil => rfl
  | cons x xs ih => simp [mapIdxQ, ih]

theorem mapIdxQ_getD (f : Nat → ℚ → ℚ) (i : Nat) (l : List ℚ) (j : Nat) :
    (mapIdxQ f i l).getD j 0
      = if j < l.length then f (i + j) (l.getD j 0) else 0 := by
  induction l generalizing i j with
  | nil => simp [mapIdxQ]
  | cons x xs ih =>
    cases j with
    | zero => simp [mapIdxQ]
    | succ j =>
      simp only [mapIdxQ, List.getD_cons_succ, ih, List.length_cons]
      rw [show i + 1 + j = i + (j + 1) by omega]
      simp [Nat.succ_lt_succ_iff]

theorem koenigWrite_length (total tailLen : Nat) (noise : Nat → Nat → ℚ)
    (step pos : Nat) (audio : List ℚ) :
    (koenigWrite total tailLen noise step pos audio).length
      = audio.length := by
  unfold koenigWrite
  exact mapIdxQ_length _ _ _

theorem koenigStep_length (total sps tailLen : Nat)
    (noise : Nat → Nat → ℚ) (audio : List ℚ) (p : Nat × Nat) :
    (koenigStep total sps tailLen noise audio p).length = audio.length := by
  unfold koenigStep
  split
  · exact koenigWrite_length _ _ _ _ _ _
  · rfl

theorem foldl_koenigStep_length (total sps tailLen : Nat)
    (noise : Nat → Nat → ℚ) (l : List (Nat × Nat)) (b : List ℚ) :
    (l.foldl (koenigStep total sps tailLen noise) b).length = b.length := by
  induction l generalizing b with
  | nil => rfl
  | cons p l ih => rw [List.foldl_cons, ih, koenigStep_length]

theorem koenigWrite_zero_safe (total tailLen : Nat) (noise : Nat → Nat → ℚ)
    (step : Nat) (audio : List ℚ) (hnoise : ∀ s i, noise s i ≠ 1)
    (ha : ∀ j, j ≠ 0 → audio.getD j 0 ≠ 1) :
    ∀ j, j ≠ 0 →
      (koenigWrite total tailLen noise step 0 audio).getD j 0 ≠ 1 := by
  intro j hj
  unfold koenigWrite
  rw [mapIdxQ_getD]
  split
  · rw [Nat.zero_add]
    rw [if_neg hj]
    split
    · exact hnoise step (j - 0 - 1)
    · exact ha j hj
  · norm_num

theorem koenigWrite_zero_sets_one (total tailLen : Nat)
    (noise : Nat → Nat → ℚ) (step : Nat) (audio : List ℚ)
    (h : 0 < audio.length) :
    (koenigWrite total tailLen noise step 0 audio).getD 0 0 = 1 := by
  unfold koenigWrite
  rw [mapIdxQ_getD, if_pos h]
  simp

theorem foldl_koenigStep_safe (total tailLen : Nat)
    (noise : Nat → Nat → ℚ) (hnoise : ∀ s i, noise s i ≠ 1)
    (l : List (Nat × Nat)) (b : List ℚ)
    (hb : ∀ j, j ≠ 0 → b.getD j 0 ≠ 1) :
    ∀ j, j ≠ 0 →
      (l.foldl (koenigStep total 0 tailLen noise) b).getD j 0 ≠ 1 := by
  induction l generalizing b with
  | nil => exact hb
  | cons p l ih =>
    rw [List.foldl_cons]
    refine ih _ ?_
    unfold koenigStep
    split
    · simp only [Nat.mul_zero]
      exact koenigWrite_zero_safe total tailLen noise p.1 b hnoise hb
    · exact hb

theorem foldl_koenigStep_keeps_one (total tailLen : Nat)
    (noise : Nat → Nat → ℚ) (l : List (Nat × Nat)) (b : List ℚ)
    (hb : b.getD 0 0 = 1) (hlen : 0 < b.length) :
    (l.foldl (koenigStep total 0 tailLen noise) b).getD 0 0 = 1 := by
  induction l generalizing b with
  | nil => exact hb
  | cons p l ih =>
    rw [List.foldl_cons]
    refine ih _ ?_ ?_
    · unfold koenigStep
      split
      · simp only [Nat.mul_zero]
        exact koenigWrite_zero_sets_one total tailLen noise p.1 b hlen
      · exact hb
    · rw [koenigStep_length]
      exact hlen

theorem foldl_koenigStep_writes_one (total tailLen : Nat)
    (noise : Nat → Nat → ℚ) (l : List (Nat × Nat)) (b : List ℚ)
    (hlen : b.length = total) (htot : 0 < total)
    (hex : ∃ p ∈ l, p.2 ≠ 0) :
    (l.foldl (koenigStep total 0 tailLen noise) b).getD 0 0 = 1 := by
  induction l generalizing b with
  | nil =>
    obtain ⟨p, hp, -⟩ := hex
    exact absurd hp (List.not_mem_nil p)
  | cons p l ih =>
    rw [List.foldl_cons]
    by_cases hp : p.2 ≠ 0
    · have hcond : p.2 ≠ 0 ∧ p.1 * 0 < total := ⟨hp, by omega⟩
      have hb' : (koenigStep total 0 tailLen noise b p).getD 0 0 = 1 := by
        unfold koenigStep
        rw [if_pos hcond]
        simp only [Nat.mul_zero]
        exact koenigWrite_zero_sets_one total tailLen noise p.1 b (by omega)
      exact foldl_koenigStep_keeps_one total tailLen noise l _ hb'
        (by rw [koenigStep_length]; omega)
    · obtain ⟨q, hq, hq2⟩ := hex
      rcases List.mem_cons.mp hq with h | h
      · exact absurd (h ▸ hq2) hp
      · have hb' : (koenigStep total 0 tailLen noise b p).length = total := by
          rw [koenigStep_length]; exact hlen
        refine ih _ hb' ⟨q, h, hq2⟩

theorem replicate_getD_zero (n j : Nat) :
    (List.replicate n (0 : ℚ)).getD j 0 = 0 := by
  induction n generalizing j with
  | zero => simp
  | succ n ih =>
    cases j with
    | zero => simp [List.replicate_succ]
    | succ j => simp [List.replicate_succ, ih]

theorem countP_le_one_of_safe (b : List ℚ)
    (hb : ∀ j, j ≠ 0 → b.getD j 0 ≠ 1) :
    b.countP (fun x => decide (x = 1)) ≤ 1 := by
  cases b with
  | nil =>
    rw [List.countP_nil]
    omega
  | cons x rest =>
    rw [List.countP_cons]
    have hrest : rest.countP (fun x => decide (x = 1)) = 0 := by
      rw [List.countP_eq_zero]
      intro a ha
      obtain ⟨i, hi, hget⟩ := List.mem_iff_getElem.mp ha
      have := hb (i + 1) (by omega)
      rw [List.getD_cons_succ, List.getD_eq_getElem rest 0 hi, hget] at this
      simpa using this
    rw [hrest]
    split <;> omega

/-- C10: with `total_samples = int(duration * sample_rate) < steps`,
the per-step stride `total_samples // steps` is zero, so every pulse
writes its impulse at index 0: the generated buffer holds the value
`1.0` only (possibly) at index 0, contains at most one such impulse
sample regardless of the requested pulse count, and holds `1.0` at
index 0 as soon as the buffer and the pulse count are nonempty. -/
theorem koenig_small_buffer_claim (duration : ℚ)
    (sample_rate pulses steps : Nat) (noise_tail_ms : ℚ)
    (noise : Nat → Nat → ℚ) (hnoise : ∀ s i, noise s i ≠ 1)
    (htotal : ⌊duration * sample_rate⌋.toNat < steps) :
    ⌊duration * sample_rate⌋.toNat / steps = 0 ∧
    (∀ j, j ≠ 0 →
      (generate_koenig_seed duration sample_rate pulses steps
        noise_tail_ms noise).getD j 0 ≠ 1) ∧
    (generate_koenig_seed duration sample_rate pulses steps
        noise_tail_ms noise).countP (fun x => decide (x = 1)) ≤ 1 ∧
    (0 < ⌊duration * sample_rate⌋.toNat → 0 < pulses → 0 < steps →
      (generate_koenig_seed duration sample_rate pulses steps
        noise_tail_ms noise).getD 0 0 = 1) := by
  have hdiv : ⌊duration * sample_rate⌋.toNat / steps = 0 :=
    Nat.div_eq_of_lt htotal
  have hsafe : ∀ j, j ≠ 0 →
      (generate_koenig_seed duration sample_rate pulses steps
        noise_tail_ms noise).getD j 0 ≠ 1 := by
    unfold generate_koenig_seed placeImpulses
    rw [hdiv]
    exact foldl_koenigStep_safe _ _ noise hnoise _ _
      (fun j _ => by rw [replicate_getD_zero]; norm_num)
  refine ⟨hdiv, hsafe, countP_le_one_of_safe _ hsafe, ?_⟩
  intro htot hp hs
  have hmem : (1 : Nat) ∈ euclidean_rhythm pulses steps := by
    by_cases hc : steps ≤ pulses
    · rw [euclidean_rhythm, if_pos hc]
      exact List.mem_replicate.mpr ⟨by omega, rfl⟩
    · have := euclidean_rhythm_count pulses steps hp (by omega)
      exact List.count_pos_iff.mp (by omega)
  have hex : ∃ p ∈ (euclidean_rhythm pulses steps).enum, p.2 ≠ 0 := by
    have hmap : ((euclidean_rhythm pulses steps).enum.map Prod.snd)
        = euclidean_rhythm pulses steps := List.enum_map_snd _
    rw [← hmap] at hmem
    obtain ⟨p, hp', hps⟩ := List.mem_map.mp hmem
    exact ⟨p, hp', by rw [hps]; omega⟩
  unfold generate_koenig_seed placeImpulses
  rw [hdiv]
  exact foldl_koenigStep_writes_one _ _ noise _ _
    (List.length_replicate _ _) htot hex

/-- Witness for C10: one-second buffer at 5 Hz (5 samples) with the
default E(5, 13) rhythm and constant noise 1/2. -/
theorem koenig_small_buffer_claim_witness :
    (generate_koenig_seed 1 5 5 13 20 (fun _ _ => 1/2)).countP
      (fun x => decide (x = 1)) ≤ 1 ∧
    (generate_koenig_seed 1 5 5 13 20 (fun _ _ => 1/2)).getD 0 0 = 1 := by
  have h := koenig_small_buffer_claim 1 5 5 13 20 (fun _ _ => 1/2)
    (fun s i => by norm_num) (by norm_num)
  exact ⟨h.2.2.1, h.2.2.2 (by norm_num) (by norm_num) (by norm_num)⟩

end LatentResonator
